import Mathlib

/-!
Shallow embedding of the PropLab line-matching and edge-scoring engine
(`matchingService.ts`, final version): name normalization, per-player
grouping, sharp consensus, edge classification with the goblin/alt-line
filter, acceptable-range and win-probability estimation, guidance strings
and ranking.  Numbers are modelled as exact rationals; JS `Math.round` is
round-half-up.
-/

/-- JS `Math.round`: round half toward positive infinity. -/
def jsRound (q : ℚ) : ℤ := ⌊q + 1/2⌋

/-- `Math.round(x * 10) / 10` — round to one decimal place. -/
def roundTo1 (q : ℚ) : ℚ := (jsRound (q * 10) : ℚ) / 10

/-- The character class `\s` of JS regular expressions (also the set used
by `String.prototype.trim`). -/
def jsWhitespace (c : Char) : Bool :=
  c == ' ' || c == '\t' || c == '\n' || c.val == 11 || c.val == 12 || c == '\r' ||
  c.val == 0xa0 || c.val == 0x1680 || (0x2000 ≤ c.val && c.val ≤ 0x200a) ||
  c.val == 0x2028 || c.val == 0x2029 || c.val == 0x202f || c.val == 0x205f ||
  c.val == 0x3000 || c.val == 0xfeff

/-- Lower-case letters `a`–`z` (the only letters kept by the
`[^a-z\s]` strip in `normalizeName`). -/
def isLowerAlpha (c : Char) : Bool := 'a' ≤ c && c ≤ 'z'

/-- JS `String.prototype.trim`: drop leading and trailing whitespace. -/
def jsTrim (l : List Char) : List Char :=
  ((l.dropWhile jsWhitespace).reverse.dropWhile jsWhitespace).reverse

/-- One application of `replace(/\s(jr|sr|ii|iii|iv)$/, '')`: if the list
ends with a whitespace character followed by one of the generational
suffixes, remove that ending (at most one such match can end at the end of
the string, so this is exactly the regex's behaviour). -/
def dropGenSuffix (l : List Char) : List Char :=
  let n := l.length
  let ends : List Char → Bool := fun s =>
    decide (l.drop (n - s.length) = s) &&
      (match l[n - s.length - 1]? with
       | some c => jsWhitespace c
       | none => false)
  if ends [ 'j', 'r' ] then l.take (n - 3)
  else if ends [ 's', 'r' ] then l.take (n - 3)
  else if ends [ 'i', 'i', 'i' ] then l.take (n - 4)
  else if ends [ 'i', 'i' ] then l.take (n - 3)
  else if ends [ 'i', 'v' ] then l.take (n - 3)
  else l

/-- `normalizeName` from `matchingService.ts`:
`name.toLowerCase().replace(/[^a-z\s]/g, '').replace(/\s(jr|sr|ii|iii|iv)$/, '').trim()`.
`toLowerCase` is modelled on the Basic Latin range (the only range whose
lower-casing can produce characters surviving the `[^a-z\s]` strip). -/
def normalizeName (s : String) : String :=
  let l := s.data.map Char.toLower
  let l := l.filter (fun c => isLowerAlpha c || jsWhitespace c)
  let l := dropGenSuffix l
  String.mk (jsTrim l)

/-- A quoted prop line (`PropLine` in `types.ts`); `point` and `price`
are exact rationals. -/
structure PropLine where
  bookmaker : String
  bookmakerKey : String
  market : String
  name : String
  label : String
  point : ℚ
  price : ℚ
  timestamp : ℚ
deriving DecidableEq, Repr

/-- DFS bookmaker keys. -/
def DFS_BOOKS : List String := ["prizepicks", "underdog_fantasy"]

/-- Minimum edge threshold (in points) to consider a play. -/
def MIN_EDGE_THRESHOLD : ℚ := 1/2

/-- Goblin/alt-line thresholds, keyed by market. -/
def GOBLIN_THRESHOLDS : List (String × ℚ) :=
  [("player_points", 8), ("player_rebounds", 4), ("player_assists", 3),
   ("player_threes", 2), ("player_pass_yds", 40), ("player_rush_yds", 25),
   ("player_reception_yds", 20), ("player_receptions", 3), ("player_pass_tds", 3/2)]

/-- Win-probability multipliers, keyed by market. -/
def EDGE_PROBABILITY_MULTIPLIERS : List (String × ℚ) :=
  [("player_points", 7/2), ("player_rebounds", 5), ("player_assists", 5),
   ("player_threes", 8), ("player_pass_yds", 3/20), ("player_rush_yds", 1/4),
   ("player_reception_yds", 1/4), ("player_receptions", 5), ("player_pass_tds", 15)]

/-- `table[key] || dflt` for the two constant tables above.  Since no
table value is `0` (the only falsy number), the JS `||` fallback fires
exactly when the key is absent. -/
def lookupOr (table : List (String × ℚ)) (key : String) (dflt : ℚ) : ℚ :=
  match table.find? (fun p => p.1 == key) with
  | some p => p.2
  | none => dflt

/-- `getConsensusLine`: mean of the quoted points rounded to one decimal,
or `null` on an empty list. -/
def getConsensusLine (lines : List PropLine) : Option ℚ :=
  match lines with
  | [] => none
  | _ =>
    let sum := lines.foldl (fun acc l => acc + l.point) 0
    some (roundTo1 (sum / lines.length))

/-- `calculateSharpAgreement`: 100 for fewer than two quotes, else the
rounded linear interpolation from 100 at spread 0 down to 0 at spread 3. -/
def calculateSharpAgreement (lines : List PropLine) : ℚ :=
  match lines.map (fun l => l.point) with
  | [] => 100
  | [_] => 100
  | p :: ps =>
    let mn := ps.foldl min p
    let mx := ps.foldl max p
    let spread := mx - mn
    if spread = 0 then 100
    else if spread ≥ 3 then 0
    else (jsRound (100 - spread / 3 * 100) : ℚ)

/-- Recommended bet direction. -/
inductive Side
  | OVER
  | UNDER
deriving DecidableEq, Repr, Inhabited

/-- `calculateAcceptableRange`: `(maxAcceptable, minAcceptable)`. -/
def calculateAcceptableRange (sharpConsensus : ℚ) (recommendedSide : Option Side) :
    Option ℚ × Option ℚ :=
  match recommendedSide with
  | none => (none, none)
  | some Side.OVER => (some (roundTo1 (sharpConsensus - MIN_EDGE_THRESHOLD)), none)
  | some Side.UNDER => (none, some (roundTo1 (sharpConsensus + MIN_EDGE_THRESHOLD)))

/-- `estimateWinProbability`: baseline 50 plus the edge times the market
multiplier (default 3.0), clamped to [50, 75], rounded to one decimal;
`null` when no side is recommended. -/
def estimateWinProbability (ppLine sharpLine : ℚ) (recommendedSide : Option Side)
    (market : String) : Option ℚ :=
  match recommendedSide with
  | none => none
  | some _ =>
    let edge := |sharpLine - ppLine|
    let multiplier := lookupOr EDGE_PROBABILITY_MULTIPLIERS market 3
    let probabilityBoost := edge * multiplier
    let rawProbability := 50 + probabilityBoost
    let cappedProbability := min 75 (max 50 rawProbability)
    some (roundTo1 cappedProbability)

/-- Digits after the decimal point of a non-negative rational with a
finite decimal expansion (every JS double has one), most significant
first; empty once the remainder is zero. -/
def fracDigitsAux (fuel : Nat) (q : ℚ) : String :=
  match fuel with
  | 0 => ""
  | fuel + 1 =>
    if q = 0 then ""
    else
      let q10 := q * 10
      let d := ⌊q10⌋
      toString d ++ fracDigitsAux fuel (q10 - (d : ℚ))

/-- JS number-to-string (template-literal interpolation) for the
finite-decimal rationals arising in this engine: sign, integer part, then
the fractional digits with no trailing zeros (omitting the point for
integers), which is the shortest round-tripping decimal JS prints. -/
def jsNumToString (q : ℚ) : String :=
  let sign := if q < 0 then "-" else ""
  let a := |q|
  let ip := ⌊a⌋
  let fs := fracDigitsAux 1100 (a - (ip : ℚ))
  sign ++ toString ip ++ (if fs = "" then "" else "." ++ fs)

/-- JS `Number.prototype.toFixed(1)` for the non-negative values it is
applied to here: round to the nearest tenth (ties up) and print exactly
one digit after the point. -/
def qToFixed1 (q : ℚ) : String :=
  let sign := if q < 0 then "-" else ""
  let n := jsRound (|q| * 10)
  sign ++ toString (n / 10) ++ "." ++ toString (n % 10)

/-- `generateGuidance`: human-readable instruction string. -/
def generateGuidance (ppLine sharpConsensus : ℚ) (recommendedSide : Option Side)
    (maxAcceptable minAcceptable : Option ℚ) : String :=
  match recommendedSide with
  | none => "No clear edge detected"
  | some side =>
    let currentEdge := |sharpConsensus - ppLine|
    match side with
    | Side.OVER =>
      match maxAcceptable with
      | some ma =>
        let buffer := ma - ppLine
        if buffer > 1 then
          "STRONG: Take OVER up to " ++ jsNumToString ma ++ ". Current line has " ++
            qToFixed1 currentEdge ++ "pt edge."
        else if buffer > 0 then
          "ACCEPTABLE: Line can move to " ++ jsNumToString ma ++ " max. Edge shrinking."
        else
          "⚠️ LINE MOVED: Current " ++ jsNumToString ppLine ++ " exceeds max " ++
            jsNumToString ma ++ ". Pass."
      | none =>
        "Edge: " ++ qToFixed1 currentEdge ++ " pts vs Sharp " ++ jsNumToString sharpConsensus
    | Side.UNDER =>
      match minAcceptable with
      | some mi =>
        let buffer := ppLine - mi
        if buffer > 1 then
          "STRONG: Take UNDER down to " ++ jsNumToString mi ++ ". Current line has " ++
            qToFixed1 currentEdge ++ "pt edge."
        else if buffer > 0 then
          "ACCEPTABLE: Line can drop to " ++ jsNumToString mi ++ " min. Edge shrinking."
        else
          "⚠️ LINE MOVED: Current " ++ jsNumToString ppLine ++ " below min " ++
            jsNumToString mi ++ ". Pass."
      | none =>
        "Edge: " ++ qToFixed1 currentEdge ++ " pts vs Sharp " ++ jsNumToString sharpConsensus

/-- Edge classification. -/
inductive EdgeType
  | DISCREPANCY
  | JUICE
  | NONE
deriving DecidableEq, Repr, Inhabited

/-- Result of `calculateEdge`. -/
structure EdgeResult where
  type : EdgeType
  score : ℚ
  details : String
deriving DecidableEq, Repr

/-- The reference sharp quote of `calculateEdge`:
`sharps.find(s => s.bookmakerKey === 'pinnacle') || sharps[0]`. -/
def referenceSharp (sharps : List PropLine) : Option PropLine :=
  match sharps.find? (fun s => s.bookmakerKey == "pinnacle") with
  | some s => some s
  | none => sharps.head?

/-- `calculateEdge`: goblin/alt-line filter, then discrepancy, then juice. -/
def calculateEdge (dfsLine : PropLine) (sharps : List PropLine) (market : String) :
    EdgeResult :=
  match referenceSharp sharps with
  | none => ⟨EdgeType.NONE, 0, "No sharp consensus"⟩
  | some sharp =>
    let ppLine := dfsLine.point
    let sharpLine := sharp.point
    let sharpOdds := sharp.price
    let diff := |ppLine - sharpLine|
    let goblinThreshold := lookupOr GOBLIN_THRESHOLDS market 5
    if diff > goblinThreshold then
      ⟨EdgeType.NONE, 0,
        "Likely Alt/Goblin Line (" ++ qToFixed1 diff ++ " pts diff > " ++
          jsNumToString goblinThreshold ++ " threshold). Ignoring."⟩
    else if diff ≥ 1 then
      ⟨EdgeType.DISCREPANCY, 90 + diff,
        "Discrepancy: PP " ++ jsNumToString ppLine ++ " vs " ++ sharp.bookmaker ++ " " ++
          jsNumToString sharpLine⟩
    else if 0 < diff ∧ diff < 1 then
      ⟨EdgeType.DISCREPANCY, 80,
        "Small Discrepancy: PP " ++ jsNumToString ppLine ++ " vs " ++ sharp.bookmaker ++
          " " ++ jsNumToString sharpLine⟩
    else if diff = 0 ∧ |sharpOdds| ≥ 135 then
      ⟨EdgeType.JUICE, 75 + (|sharpOdds| - 130) / 2,
        "Juice Edge: " ++ sharp.bookmaker ++ " has " ++ jsNumToString sharpOdds⟩
    else
      ⟨EdgeType.NONE, 0, "No significant edge"⟩

/-- The analyzed output record (`PlayerPropItem` in `types.ts`); fields
the engine leaves `undefined` are modelled as `none`. -/
structure PlayerPropItem where
  id : String
  gameId : String
  sport : String
  playerId : String
  playerName : String
  market : String
  team : String
  opponent : String
  prizePicksLine : Option PropLine
  sharpLines : List PropLine
  edgeType : EdgeType
  edgeScore : ℚ
  edgeDetails : String
  recommendedSide : Option Side
  fairValue : Option ℚ
  maxAcceptableLine : Option ℚ
  minAcceptableLine : Option ℚ
  edgeRemaining : ℚ
  sharpAgreement : ℚ
  winProbability : Option ℚ
  aiInsight : Option String
deriving DecidableEq, Repr, Inhabited

/-- One player's bucket in the grouping map. -/
structure PlayerGroup where
  dfs : List PropLine
  sharps : List PropLine
deriving DecidableEq, Repr

/-- The grouping loop of `matchAndFindEdges`: build the insertion-ordered
map from normalized player name to `{dfs, sharps}` buckets (JS `Map`
iteration follows insertion order, so an ordered association list models
it exactly). -/
def groupLines (allLines : List PropLine) : List (String × PlayerGroup) :=
  allLines.foldl
    (fun groups line =>
      let key := normalizeName line.name
      let isDfs := DFS_BOOKS.contains line.bookmakerKey
      match groups.find? (fun g => g.1 == key) with
      | some _ =>
        groups.map (fun g =>
          if g.1 == key then
            (g.1,
              if isDfs then ⟨g.2.dfs ++ [line], g.2.sharps⟩
              else ⟨g.2.dfs, g.2.sharps ++ [line]⟩)
          else g)
      | none =>
        groups ++ [(key, if isDfs then ⟨[line], []⟩ else ⟨[], [line]⟩)])
    []

/-- Output of the edge-classification block (lines computing `edgeType`,
`edgeScore`, `edgeDetails`, `recommendedSide` in `matchAndFindEdges`). -/
structure EdgeBlockOut where
  edgeType : EdgeType
  edgeScore : ℚ
  edgeDetails : String
  recommendedSide : Option Side
deriving DecidableEq, Repr

/-- The edge-classification block of `matchAndFindEdges`: run
`calculateEdge` when at least one sharp OVER quote exists; on a non-NONE
edge derive the recommended side from the sign of `(consensus || 0) −
softLine` and, for DISCREPANCY only, boost the score by
`round(sharpAgreement / 10)` capped at 100. -/
def edgeBlock (ppLine : PropLine) (sharpOvers : List PropLine) (market : String)
    (sharpConsensus : Option ℚ) (sharpAgreement : ℚ) : EdgeBlockOut :=
  if sharpOvers.length > 0 then
    let edgeResult := calculateEdge ppLine sharpOvers market
    if edgeResult.type ≠ EdgeType.NONE then
      let diff := sharpConsensus.getD 0 - ppLine.point
      let side := if diff > 0 then Side.OVER else Side.UNDER
      let score :=
        if edgeResult.type = EdgeType.DISCREPANCY then
          min 100 (edgeResult.score + (jsRound (sharpAgreement / 10) : ℚ))
        else edgeResult.score
      ⟨edgeResult.type, score, edgeResult.details, some side⟩
    else
      ⟨edgeResult.type, edgeResult.score, edgeResult.details, none⟩
  else ⟨EdgeType.NONE, 0, "", none⟩

/-- Output of the consensus-dependent block of `matchAndFindEdges`. -/
structure ConsensusBlockOut where
  maxAcceptableLine : Option ℚ
  minAcceptableLine : Option ℚ
  edgeRemaining : ℚ
  winProbability : Option ℚ
  edgeDetails : String
deriving DecidableEq, Repr

/-- The consensus-dependent block of `matchAndFindEdges`: acceptable
range, remaining edge, win probability and guidance when a sharp
consensus exists; otherwise the cleared fields with the no-sharp-lines
detail. -/
def consensusBlock (ppLine : PropLine) (market : String) (sharpConsensus : Option ℚ)
    (recommendedSide : Option Side) (edgeDetails : String) : ConsensusBlockOut :=
  match sharpConsensus with
  | some consensus =>
    let ranges := calculateAcceptableRange consensus recommendedSide
    let edgeRemaining := |consensus - ppLine.point|
    let winProbability := estimateWinProbability ppLine.point consensus recommendedSide market
    let details :=
      match recommendedSide with
      | some _ => generateGuidance ppLine.point consensus recommendedSide ranges.1 ranges.2
      | none => edgeDetails
    ⟨ranges.1, ranges.2, edgeRemaining, winProbability, details⟩
  | none =>
    ⟨none, none, 0, none, "No sharp lines available for comparison"⟩

/-- The record `matchAndFindEdges` pushes for one player group whose
soft OVER quotes are `dfsLine :: restOvers`. -/
def mkAnalyzedItem (gameId sport market normalizedName : String) (group : PlayerGroup)
    (dfsLine : PropLine) (restOvers : List PropLine) : PlayerPropItem :=
  let dfsOvers := dfsLine :: restOvers
  let sharpOvers := group.sharps.filter (fun l => l.label == "Over")
  let ppLine := (dfsOvers.find? (fun l => l.bookmakerKey == "prizepicks")).getD dfsLine
  let sharpConsensus := getConsensusLine sharpOvers
  let sharpAgreement := calculateSharpAgreement sharpOvers
  let eb := edgeBlock ppLine sharpOvers market sharpConsensus sharpAgreement
  let cb := consensusBlock ppLine market sharpConsensus eb.recommendedSide eb.edgeDetails
  { id := gameId ++ "_" ++ normalizedName ++ "_" ++ market
    gameId := gameId
    sport := sport
    playerId := normalizedName
    playerName := dfsLine.name
    market := market
    team := "TBD"
    opponent := "TBD"
    prizePicksLine := some ppLine
    sharpLines := sharpOvers
    edgeType := eb.edgeType
    edgeScore := eb.edgeScore
    edgeDetails := cb.edgeDetails
    recommendedSide := eb.recommendedSide
    fairValue := sharpConsensus
    maxAcceptableLine := cb.maxAcceptableLine
    minAcceptableLine := cb.minAcceptableLine
    edgeRemaining := cb.edgeRemaining
    sharpAgreement := sharpAgreement
    winProbability := cb.winProbability
    aiInsight := none }

/-- The body of the per-player loop of `matchAndFindEdges`: skip the
group when it has no soft OVER quote, else build its record. -/
def processGroup (gameId sport market normalizedName : String) (group : PlayerGroup) :
    Option PlayerPropItem :=
  match group.dfs.filter (fun l => l.label == "Over") with
  | [] => none
  | dfsLine :: restOvers =>
    some (mkAnalyzedItem gameId sport market normalizedName group dfsLine restOvers)

/-- Stable descending insertion by `edgeScore` (the JS
`sort((a, b) => b.edgeScore - a.edgeScore)` is a stable descending sort). -/
def insertByScoreDesc (a : PlayerPropItem) : List PlayerPropItem → List PlayerPropItem
  | [] => [a]
  | b :: bs => if a.edgeScore > b.edgeScore then a :: b :: bs else b :: insertByScoreDesc a bs

/-- Stable sort by `edgeScore` descending. -/
def sortByEdgeScoreDesc (l : List PlayerPropItem) : List PlayerPropItem :=
  l.foldl (fun acc a => insertByScoreDesc a acc) []

/-- `matchAndFindEdges`: group the quotes by normalized player name,
analyze each group, and sort the records by edge score descending. -/
def matchAndFindEdges (allLines : List PropLine) (gameId sport market : String) :
    List PlayerPropItem :=
  sortByEdgeScoreDesc
    ((groupLines allLines).filterMap (fun g => processGroup gameId sport market g.1 g.2))

/-! Helper lemmas about the embedded engine. -/

theorem getConsensusLine_ne_none_iff (l : List PropLine) :
    getConsensusLine l ≠ none ↔ l ≠ [] := by
  cases l <;> simp [getConsensusLine]

theorem mem_insertByScoreDesc {x a : PlayerPropItem} {l : List PlayerPropItem} :
    x ∈ insertByScoreDesc a l ↔ x = a ∨ x ∈ l := by
  induction l with
  | nil => simp [insertByScoreDesc]
  | cons b bs ih =>
    unfold insertByScoreDesc
    split
    · simp
    · simp only [List.mem_cons, ih]
      tauto

theorem mem_sortByEdgeScoreDesc {x : PlayerPropItem} {l : List PlayerPropItem} :
    x ∈ sortByEdgeScoreDesc l ↔ x ∈ l := by
  have h : ∀ (l acc : List PlayerPropItem),
      x ∈ List.foldl (fun acc a => insertByScoreDesc a acc) acc l ↔ x ∈ acc ∨ x ∈ l := by
    intro l
    induction l with
    | nil => simp
    | cons a t ih =>
      intro acc
      rw [List.foldl_cons, ih, mem_insertByScoreDesc]
      simp only [List.mem_cons]
      tauto
  simpa using h l []

theorem mem_matchAndFindEdges {item : PlayerPropItem} {allLines : List PropLine}
    {gameId sport market : String} :
    item ∈ matchAndFindEdges allLines gameId sport market ↔
      ∃ kg, kg ∈ groupLines allLines ∧ processGroup gameId sport market kg.1 kg.2 = some item := by
  unfold matchAndFindEdges
  rw [mem_sortByEdgeScoreDesc, List.mem_filterMap]

theorem processGroup_eq_some_iff {gameId sport market key : String} {grp : PlayerGroup}
    {item : PlayerPropItem} :
    processGroup gameId sport market key grp = some item ↔
      ∃ d r, grp.dfs.filter (fun l => l.label == "Over") = d :: r ∧
        item = mkAnalyzedItem gameId sport market key grp d r := by
  unfold processGroup
  cases h : grp.dfs.filter (fun l => l.label == "Over") with
  | nil => simp
  | cons d r =>
    constructor
    · intro he
      exact ⟨d, r, rfl, (Option.some.inj he).symm⟩
    · rintro ⟨d2, r2, hdr, he⟩
      cases hdr
      rw [he]

theorem item_spec {allLines : List PropLine} {gameId sport market : String}
    {item : PlayerPropItem} (h : item ∈ matchAndFindEdges allLines gameId sport market) :
    ∃ key grp d r, (key, grp) ∈ groupLines allLines ∧
      grp.dfs.filter (fun l => l.label == "Over") = d :: r ∧
      item = mkAnalyzedItem gameId sport market key grp d r := by
  obtain ⟨⟨key, grp⟩, hmem, hp⟩ := mem_matchAndFindEdges.mp h
  obtain ⟨d, r, hdr, he⟩ := processGroup_eq_some_iff.mp hp
  exact ⟨key, grp, d, r, hmem, hdr, he⟩

/-- The sharp OVER quotes of a group. -/
def sharpOversOf (grp : PlayerGroup) : List PropLine :=
  grp.sharps.filter (fun l => l.label == "Over")

/-- The chosen soft quote: the PrizePicks OVER quote if present, else the
first soft OVER quote. -/
def chosenPp (dfsLine : PropLine) (restOvers : List PropLine) : PropLine :=
  ((dfsLine :: restOvers).find? (fun l => l.bookmakerKey == "prizepicks")).getD dfsLine

theorem mk_playerId (gameId sport market key : String) (grp : PlayerGroup)
    (d : PropLine) (r : List PropLine) :
    (mkAnalyzedItem gameId sport market key grp d r).playerId = key := rfl

theorem mk_sharpLines (gameId sport market key : String) (grp : PlayerGroup)
    (d : PropLine) (r : List PropLine) :
    (mkAnalyzedItem gameId sport market key grp d r).sharpLines = sharpOversOf grp := rfl

theorem mk_prizePicksLine (gameId sport market key : String) (grp : PlayerGroup)
    (d : PropLine) (r : List PropLine) :
    (mkAnalyzedItem gameId sport market key grp d r).prizePicksLine = some (chosenPp d r) := rfl

theorem mk_fairValue (gameId sport market key : String) (grp : PlayerGroup)
    (d : PropLine) (r : List PropLine) :
    (mkAnalyzedItem gameId sport market key grp d r).fairValue =
      getConsensusLine (sharpOversOf grp) := rfl

theorem mk_sharpAgreement (gameId sport market key : String) (grp : PlayerGroup)
    (d : PropLine) (r : List PropLine) :
    (mkAnalyzedItem gameId sport market key grp d r).sharpAgreement =
      calculateSharpAgreement (sharpOversOf grp) := rfl

theorem mk_edgeType (gameId sport market key : String) (grp : PlayerGroup)
    (d : PropLine) (r : List PropLine) :
    (mkAnalyzedItem gameId sport market key grp d r).edgeType =
      (edgeBlock (chosenPp d r) (sharpOversOf grp) market (getConsensusLine (sharpOversOf grp))
        (calculateSharpAgreement (sharpOversOf grp))).edgeType := rfl

theorem mk_edgeScore (gameId sport market key : String) (grp : PlayerGroup)
    (d : PropLine) (r : List PropLine) :
    (mkAnalyzedItem gameId sport market key grp d r).edgeScore =
      (edgeBlock (chosenPp d r) (sharpOversOf grp) market (getConsensusLine (sharpOversOf grp))
        (calculateSharpAgreement (sharpOversOf grp))).edgeScore := rfl

theorem mk_recommendedSide (gameId sport market key : String) (grp : PlayerGroup)
    (d : PropLine) (r : List PropLine) :
    (mkAnalyzedItem gameId sport market key grp d r).recommendedSide =
      (edgeBlock (chosenPp d r) (sharpOversOf grp) market (getConsensusLine (sharpOversOf grp))
        (calculateSharpAgreement (sharpOversOf grp))).recommendedSide := rfl

theorem mk_consensusFields (gameId sport market key : String) (grp : PlayerGroup)
    (d : PropLine) (r : List PropLine) :
    ((mkAnalyzedItem gameId sport market key grp d r).maxAcceptableLine,
     (mkAnalyzedItem gameId sport market key grp d r).minAcceptableLine,
     (mkAnalyzedItem gameId sport market key grp d r).edgeRemaining,
     (mkAnalyzedItem gameId sport market key grp d r).winProbability,
     (mkAnalyzedItem gameId sport market key grp d r).edgeDetails) =
      (let eb := edgeBlock (chosenPp d r) (sharpOversOf grp) market
        (getConsensusLine (sharpOversOf grp)) (calculateSharpAgreement (sharpOversOf grp))
       let cb := consensusBlock (chosenPp d r) market (getConsensusLine (sharpOversOf grp))
        eb.recommendedSide eb.edgeDetails
       (cb.maxAcceptableLine, cb.minAcceptableLine, cb.edgeRemaining, cb.winProbability,
        cb.edgeDetails)) := rfl

theorem edgeBlock_nil (pp : PropLine) (market : String) (c : Option ℚ) (a : ℚ) :
    edgeBlock pp [] market c a = ⟨EdgeType.NONE, 0, "", none⟩ := rfl

theorem edgeBlock_type_of_ne_nil (pp : PropLine) (so : List PropLine) (market : String)
    (c : Option ℚ) (a : ℚ) (h : so ≠ []) :
    (edgeBlock pp so market c a).edgeType = (calculateEdge pp so market).type := by
  unfold edgeBlock
  rw [if_pos (List.length_pos.mpr h)]
  by_cases h2 : (calculateEdge pp so market).type = EdgeType.NONE
  · simp [h2]
  · simp [h2]

theorem edgeBlock_side_none_iff (pp : PropLine) (so : List PropLine) (market : String)
    (c : Option ℚ) (a : ℚ) :
    (edgeBlock pp so market c a).recommendedSide = none ↔
      (edgeBlock pp so market c a).edgeType = EdgeType.NONE := by
  cases so with
  | nil => simp [edgeBlock_nil]
  | cons s ss =>
    unfold edgeBlock
    rw [if_pos (by simp : (s :: ss).length > 0)]
    by_cases h2 : (calculateEdge pp (s :: ss) market).type = EdgeType.NONE
    · simp [h2]
    · simp [h2]

theorem edgeBlock_side_spec (pp : PropLine) (so : List PropLine) (market : String)
    (c : Option ℚ) (a : ℚ)
    (h : (edgeBlock pp so market c a).edgeType ≠ EdgeType.NONE) :
    (edgeBlock pp so market c a).recommendedSide =
      some (if c.getD 0 - pp.point > 0 then Side.OVER else Side.UNDER) := by
  cases so with
  | nil => simp [edgeBlock_nil] at h
  | cons s ss =>
    have ht := edgeBlock_type_of_ne_nil pp (s :: ss) market c a (by simp)
    rw [ht] at h
    unfold edgeBlock
    rw [if_pos (by simp : (s :: ss).length > 0)]
    simp [h]

theorem edgeBlock_score_of_discrepancy (pp : PropLine) (so : List PropLine) (market : String)
    (c : Option ℚ) (a : ℚ)
    (h : (edgeBlock pp so market c a).edgeType = EdgeType.DISCREPANCY) :
    (edgeBlock pp so market c a).edgeScore =
      min 100 ((calculateEdge pp so market).score + (jsRound (a / 10) : ℚ)) := by
  cases so with
  | nil => simp [edgeBlock_nil] at h
  | cons s ss =>
    have ht := edgeBlock_type_of_ne_nil pp (s :: ss) market c a (by simp)
    rw [ht] at h
    unfold edgeBlock
    rw [if_pos (by simp : (s :: ss).length > 0)]
    simp [h]

theorem edgeBlock_score_of_juice (pp : PropLine) (so : List PropLine) (market : String)
    (c : Option ℚ) (a : ℚ)
    (h : (edgeBlock pp so market c a).edgeType = EdgeType.JUICE) :
    (edgeBlock pp so market c a).edgeScore = (calculateEdge pp so market).score := by
  cases so with
  | nil => simp [edgeBlock_nil] at h
  | cons s ss =>
    have ht := edgeBlock_type_of_ne_nil pp (s :: ss) market c a (by simp)
    rw [ht] at h
    unfold edgeBlock
    rw [if_pos (by simp : (s :: ss).length > 0)]
    simp [h]

theorem consensusBlock_none (pp : PropLine) (market : String) (side : Option Side)
    (d : String) :
    consensusBlock pp market none side d =
      ⟨none, none, 0, none, "No sharp lines available for comparison"⟩ := rfl

theorem consensusBlock_some_max (pp : PropLine) (market : String) (c : ℚ)
    (side : Option Side) (d : String) :
    (consensusBlock pp market (some c) side d).maxAcceptableLine =
      (calculateAcceptableRange c side).1 := rfl

theorem consensusBlock_some_min (pp : PropLine) (market : String) (c : ℚ)
    (side : Option Side) (d : String) :
    (consensusBlock pp market (some c) side d).minAcceptableLine =
      (calculateAcceptableRange c side).2 := rfl

theorem consensusBlock_some_winProbability (pp : PropLine) (market : String) (c : ℚ)
    (side : Option Side) (d : String) :
    (consensusBlock pp market (some c) side d).winProbability =
      estimateWinProbability pp.point c side market := rfl

theorem acceptableRange_none (c : ℚ) : calculateAcceptableRange c none = (none, none) := rfl

theorem acceptableRange_over (c : ℚ) :
    calculateAcceptableRange c (some Side.OVER) =
      (some (roundTo1 (c - MIN_EDGE_THRESHOLD)), none) := rfl

theorem acceptableRange_under (c : ℚ) :
    calculateAcceptableRange c (some Side.UNDER) =
      (none, some (roundTo1 (c + MIN_EDGE_THRESHOLD))) := rfl

theorem estimateWinProbability_some (pp sl : ℚ) (s : Side) (market : String) :
    estimateWinProbability pp sl (some s) market =
      some (roundTo1 (min 75 (max 50
        (50 + |sl - pp| * lookupOr EDGE_PROBABILITY_MULTIPLIERS market 3)))) := rfl

theorem groupLines_keys_nodup (allLines : List PropLine) :
    ((groupLines allLines).map Prod.fst).Nodup := by
  unfold groupLines
  have hgen : ∀ (ls : List PropLine) (acc : List (String × PlayerGroup)),
      (acc.map Prod.fst).Nodup →
      ((ls.foldl
        (fun groups line =>
          let key := normalizeName line.name
          let isDfs := DFS_BOOKS.contains line.bookmakerKey
          match groups.find? (fun g => g.1 == key) with
          | some _ =>
            groups.map (fun g =>
              if g.1 == key then
                (g.1,
                  if isDfs then ⟨g.2.dfs ++ [line], g.2.sharps⟩
                  else ⟨g.2.dfs, g.2.sharps ++ [line]⟩)
              else g)
          | none =>
            groups ++ [(key, if isDfs then ⟨[line], []⟩ else ⟨[], [line]⟩)])
        acc).map Prod.fst).Nodup := by
    intro ls
    induction ls with
    | nil => intro acc h; simpa using h
    | cons line rest ih =>
      intro acc h
      rw [List.foldl_cons]
      apply ih
      cases hf : acc.find? (fun g => g.1 == normalizeName line.name) with
      | some g0 =>
        simp only [hf]
        have hmap :
            ((acc.map (fun g =>
              if g.1 == normalizeName line.name then
                (g.1,
                  if DFS_BOOKS.contains line.bookmakerKey then
                    (⟨g.2.dfs ++ [line], g.2.sharps⟩ : PlayerGroup)
                  else ⟨g.2.dfs, g.2.sharps ++ [line]⟩)
              else g)).map Prod.fst) = acc.map Prod.fst := by
          rw [List.map_map]
          apply List.map_congr_left
          intro g _
          by_cases hg : (g.1 == normalizeName line.name) = true
          · rw [Function.comp_apply, if_pos hg]
          · rw [Function.comp_apply, if_neg hg]
        rw [hmap]
        exact h
      | none =>
        simp only [hf]
        rw [List.map_append]
        have hnotin : normalizeName line.name ∉ acc.map Prod.fst := by
          intro hk
          obtain ⟨p, hp, he⟩ := List.mem_map.mp hk
          have hfe := List.find?_eq_none.mp hf p hp
          rw [he] at hfe
          simp at hfe
        simp only [List.map_cons, List.map_nil]
        rw [List.nodup_append]
        refine ⟨h, List.nodup_singleton _, ?_⟩
        intro x hx hy
        simp only [List.mem_singleton] at hy
        subst hy
        exact hnotin hx
  exact hgen allLines [] (by simp)

theorem assoc_keys_nodup_inj {l : List (String × PlayerGroup)}
    (h : (l.map Prod.fst).Nodup) {k : String} {g1 g2 : PlayerGroup}
    (h1 : (k, g1) ∈ l) (h2 : (k, g2) ∈ l) : g1 = g2 := by
  induction l with
  | nil => cases h1
  | cons p t ih =>
    rw [List.map_cons, List.nodup_cons] at h
    rcases List.mem_cons.mp h1 with he1 | h1t
    · rcases List.mem_cons.mp h2 with he2 | h2t
      · rw [← he1] at he2
        exact (Prod.mk.injEq _ _ _ _ ▸ he2.symm : k = k ∧ g1 = g2).2
      · exfalso
        apply h.1
        rw [← he1]
        exact List.mem_map.mpr ⟨(k, g2), h2t, rfl⟩
    · rcases List.mem_cons.mp h2 with he2 | h2t
      · exfalso
        apply h.1
        rw [← he2]
        exact List.mem_map.mpr ⟨(k, g1), h1t, rfl⟩
      · exact ih h.2 h1t h2t

/-! Claim theorems. -/

/-- Concrete example quotes used to instantiate the claim theorems. -/
def ppExample : PropLine :=
  ⟨"PrizePicks", "prizepicks", "player_points", "LeBron James", "Over", 49/2, -115, 0⟩

/-- A Pinnacle OVER quote at a given point and price, for the same player
and market as `ppExample`. -/
def pinnacleAt (pt pr : ℚ) : PropLine :=
  ⟨"Pinnacle", "pinnacle", "player_points", "LeBron James", "Over", pt, pr, 0⟩

/-- C9: for every AnalyzedProp record produced by a matching run,
`recommendedSide` is non-null if and only if `edgeType` is not `NONE`. -/
theorem recommendedSide_iff_edgeType (allLines : List PropLine)
    (gameId sport market : String) (item : PlayerPropItem)
    (hmem : item ∈ matchAndFindEdges allLines gameId sport market) :
    item.recommendedSide ≠ none ↔ item.edgeType ≠ EdgeType.NONE := by
  obtain ⟨key, grp, d, r, _, _, rfl⟩ := item_spec hmem
  rw [mk_recommendedSide, mk_edgeType]
  exact not_congr (edgeBlock_side_none_iff _ _ _ _ _)

/-- The record the engine produces for `ppExample` alone (no sharp quotes). -/
def soloItem : PlayerPropItem :=
  mkAnalyzedItem "g1" "basketball_nba" "player_points" "lebron james"
    ⟨[ppExample], []⟩ ppExample []

/-- `soloItem` really is a record of the run on `[ppExample]`. -/
theorem soloItem_mem :
    soloItem ∈ matchAndFindEdges [ppExample] "g1" "basketball_nba" "player_points" :=
  mem_matchAndFindEdges.mpr
    ⟨("lebron james", ⟨[ppExample], []⟩),
     by
      rw [show groupLines [ppExample] =
        [("lebron james", (⟨[ppExample], []⟩ : PlayerGroup))] from rfl]
      exact List.mem_singleton_self _,
     rfl⟩

theorem recommendedSide_iff_edgeType_witness :
    (soloItem.recommendedSide ≠ none ↔ soloItem.edgeType ≠ EdgeType.NONE) :=
  recommendedSide_iff_edgeType [ppExample] "g1" "basketball_nba" "player_points"
    soloItem soloItem_mem

/-- C10: for every record with a non-NONE edge, the recommended side is
`UNDER` whenever the sharp consensus minus the soft line is zero or
negative, and `OVER` is recommended only when the consensus strictly
exceeds the soft line. -/
theorem under_on_nonpositive_gap (allLines : List PropLine) (gameId sport market : String)
    (item : PlayerPropItem) (hmem : item ∈ matchAndFindEdges allLines gameId sport market)
    (pp : PropLine) (hpp : item.prizePicksLine = some pp) (c : ℚ)
    (hc : item.fairValue = some c) (hne : item.edgeType ≠ EdgeType.NONE) :
    (c - pp.point ≤ 0 → item.recommendedSide = some Side.UNDER) ∧
    (item.recommendedSide = some Side.OVER → 0 < c - pp.point) := by
  obtain ⟨key, grp, d, r, _, _, rfl⟩ := item_spec hmem
  rw [mk_prizePicksLine] at hpp
  obtain rfl : chosenPp d r = pp := Option.some.inj hpp
  rw [mk_fairValue] at hc
  rw [mk_edgeType] at hne
  rw [mk_recommendedSide,
    edgeBlock_side_spec (chosenPp d r) (sharpOversOf grp) market
      (getConsensusLine (sharpOversOf grp)) (calculateSharpAgreement (sharpOversOf grp)) hne,
    hc]
  simp only [Option.getD_some]
  constructor
  · intro hle
    rw [if_neg (by linarith : ¬ c - (chosenPp d r).point > 0)]
  · intro hov
    by_cases hgt : c - (chosenPp d r).point > 0
    · exact hgt
    · rw [if_neg hgt] at hov
      simp at hov

/-- The record the engine produces for `ppExample` against a single
pinnacle quote at the same line with price −190. -/
def juiceItem : PlayerPropItem :=
  mkAnalyzedItem "g1" "basketball_nba" "player_points" "lebron james"
    ⟨[ppExample], [pinnacleAt (49/2) (-190)]⟩ ppExample []

/-- `juiceItem` really is a record of the run on `ppExample` plus the
pinnacle quote at point 24.5 and price −190. -/
theorem juiceItem_mem :
    juiceItem ∈ matchAndFindEdges [ppExample, pinnacleAt (49/2) (-190)]
      "g1" "basketball_nba" "player_points" :=
  mem_matchAndFindEdges.mpr
    ⟨("lebron james", ⟨[ppExample], [pinnacleAt (49/2) (-190)]⟩),
     by
      rw [show groupLines [ppExample, pinnacleAt (49/2) (-190)] =
        [("lebron james", (⟨[ppExample], [pinnacleAt (49/2) (-190)]⟩ : PlayerGroup))] from rfl]
      exact List.mem_singleton_self _,
     rfl⟩

/-- The JUICE record of `juiceItem`: its edge type is JUICE and its
fair value matches the soft line. -/
theorem juiceItem_fields :
    juiceItem.edgeType = EdgeType.JUICE ∧
    juiceItem.fairValue = some (49/2) ∧
    juiceItem.prizePicksLine = some ppExample ∧
    juiceItem.sharpAgreement = 100 := by
  refine ⟨?_, ?_, ?_, ?_⟩
  · rw [show juiceItem.edgeType =
      (edgeBlock (chosenPp ppExample []) (sharpOversOf ⟨[ppExample], [pinnacleAt (49/2) (-190)]⟩)
        "player_points"
        (getConsensusLine (sharpOversOf ⟨[ppExample], [pinnacleAt (49/2) (-190)]⟩))
        (calculateSharpAgreement (sharpOversOf ⟨[ppExample], [pinnacleAt (49/2) (-190)]⟩))).edgeType
      from rfl]
    rw [edgeBlock_type_of_ne_nil _ _ _ _ _ (by
      rw [show sharpOversOf ⟨[ppExample], [pinnacleAt (49/2) (-190)]⟩ =
        [pinnacleAt (49/2) (-190)] from rfl]
      simp)]
    rw [show sharpOversOf ⟨[ppExample], [pinnacleAt (49/2) (-190)]⟩ =
      [pinnacleAt (49/2) (-190)] from rfl]
    norm_num [calculateEdge, referenceSharp, lookupOr, GOBLIN_THRESHOLDS, ppExample, pinnacleAt,
      chosenPp]
  · rw [show juiceItem.fairValue =
      getConsensusLine (sharpOversOf ⟨[ppExample], [pinnacleAt (49/2) (-190)]⟩) from rfl,
      show sharpOversOf ⟨[ppExample], [pinnacleAt (49/2) (-190)]⟩ =
        [pinnacleAt (49/2) (-190)] from rfl]
    norm_num [getConsensusLine, roundTo1, jsRound, pinnacleAt]
  · rfl
  · rw [show juiceItem.sharpAgreement =
      calculateSharpAgreement (sharpOversOf ⟨[ppExample], [pinnacleAt (49/2) (-190)]⟩) from rfl]
    rfl

theorem under_on_nonpositive_gap_witness :
    juiceItem.recommendedSide = some Side.UNDER :=
  (under_on_nonpositive_gap [ppExample, pinnacleAt (49/2) (-190)]
      "g1" "basketball_nba" "player_points" juiceItem juiceItem_mem
      ppExample rfl (49/2) juiceItem_fields.2.1
      (by rw [juiceItem_fields.1]; simp)).1
    (by norm_num [ppExample])

/-- C1: for a soft quote against the reference sharp quote of a market
with alt-line tolerance `T` (per-market table: `player_points` 8,
`player_pass_yds` 40), a gap strictly greater than `T` classifies `NONE`
with the alternate-line detail regardless of price, and a gap at most `T`
falls through to the magnitude rules, giving `DISCREPANCY` when the gap
is at least 1.0. -/
theorem alt_line_filter (dfsLine sharp : PropLine) (sharps : List PropLine) (market : String)
    (href : referenceSharp sharps = some sharp) :
    lookupOr GOBLIN_THRESHOLDS "player_points" 5 = 8 ∧
    lookupOr GOBLIN_THRESHOLDS "player_pass_yds" 5 = 40 ∧
    (|dfsLine.point - sharp.point| > lookupOr GOBLIN_THRESHOLDS market 5 →
       calculateEdge dfsLine sharps market =
         ⟨EdgeType.NONE, 0,
           "Likely Alt/Goblin Line (" ++ qToFixed1 |dfsLine.point - sharp.point| ++
             " pts diff > " ++ jsNumToString (lookupOr GOBLIN_THRESHOLDS market 5) ++
             " threshold). Ignoring."⟩) ∧
    (|dfsLine.point - sharp.point| ≤ lookupOr GOBLIN_THRESHOLDS market 5 →
       1 ≤ |dfsLine.point - sharp.point| →
       (calculateEdge dfsLine sharps market).type = EdgeType.DISCREPANCY) := by
  refine ⟨rfl, rfl, ?_, ?_⟩
  · intro h
    simp only [calculateEdge, href]
    rw [if_pos h]
  · intro hle h1
    simp only [calculateEdge, href]
    rw [if_neg (not_lt.mpr hle), if_pos h1]

theorem alt_line_filter_witness :
    (calculateEdge ppExample [pinnacleAt (67/2) (-120)] "player_points").type =
      EdgeType.NONE ∧
    (calculateEdge ppExample [pinnacleAt (53/2) (-120)] "player_points").type =
      EdgeType.DISCREPANCY :=
  ⟨congrArg EdgeResult.type
    ((alt_line_filter ppExample (pinnacleAt (67/2) (-120)) [pinnacleAt (67/2) (-120)]
        "player_points" rfl).2.2.1
      (by norm_num [ppExample, pinnacleAt, lookupOr, GOBLIN_THRESHOLDS])),
   (alt_line_filter ppExample (pinnacleAt (53/2) (-120)) [pinnacleAt (53/2) (-120)]
        "player_points" rfl).2.2.2
      (by norm_num [ppExample, pinnacleAt, lookupOr, GOBLIN_THRESHOLDS])
      (by norm_num [ppExample, pinnacleAt])⟩

/-- The JUICE score of `juiceItem` is the raw uncapped 75 + (190 − 130)/2. -/
theorem juiceItem_edgeScore : juiceItem.edgeScore = 105 := by
  have ht := juiceItem_fields.1
  unfold juiceItem at ht ⊢
  rw [mk_edgeType] at ht
  rw [mk_edgeScore, edgeBlock_score_of_juice _ _ _ _ _ ht]
  rw [show sharpOversOf ⟨[ppExample], [pinnacleAt (49/2) (-190)]⟩ =
    [pinnacleAt (49/2) (-190)] from rfl]
  norm_num [calculateEdge, referenceSharp, lookupOr, GOBLIN_THRESHOLDS, ppExample, pinnacleAt,
    chosenPp]

/-- C2: a record produced by a matching run whose edgeScore exceeds 100 —
the JUICE branch score `75 + (|price| − 130) / 2` is never capped, so a
sharp price of −190 at the identical line yields edgeScore 105. -/
theorem juice_score_exceeds_100 :
    juiceItem ∈ matchAndFindEdges [ppExample, pinnacleAt (49/2) (-190)]
      "g1" "basketball_nba" "player_points" ∧
    juiceItem.edgeType = EdgeType.JUICE ∧
    juiceItem.edgeScore = 105 ∧
    ¬ juiceItem.edgeScore ≤ 100 :=
  ⟨juiceItem_mem, juiceItem_fields.1, juiceItem_edgeScore, by
    rw [juiceItem_edgeScore]; norm_num⟩

/-- C3 (amended): the sharp-agreement boost and the 100 cap apply only to
`DISCREPANCY` records; a `JUICE` record keeps the raw `calculateEdge`
score unboosted. -/
theorem edgeScore_boost_rule (allLines : List PropLine) (gameId sport market : String)
    (item : PlayerPropItem) (hmem : item ∈ matchAndFindEdges allLines gameId sport market)
    (pp : PropLine) (hpp : item.prizePicksLine = some pp) :
    (item.edgeType = EdgeType.DISCREPANCY →
       item.edgeScore = min 100 ((calculateEdge pp item.sharpLines market).score +
         (jsRound (item.sharpAgreement / 10) : ℚ))) ∧
    (item.edgeType = EdgeType.JUICE →
       item.edgeScore = (calculateEdge pp item.sharpLines market).score) := by
  obtain ⟨key, grp, d, r, _, _, rfl⟩ := item_spec hmem
  rw [mk_prizePicksLine] at hpp
  obtain rfl : chosenPp d r = pp := Option.some.inj hpp
  rw [mk_sharpLines, mk_sharpAgreement, mk_edgeType, mk_edgeScore]
  exact ⟨fun ht => edgeBlock_score_of_discrepancy _ _ _ _ _ ht,
         fun ht => edgeBlock_score_of_juice _ _ _ _ _ ht⟩

theorem edgeScore_boost_rule_witness :
    juiceItem.edgeScore = (calculateEdge ppExample juiceItem.sharpLines "player_points").score :=
  (edgeScore_boost_rule [ppExample, pinnacleAt (49/2) (-190)] "g1" "basketball_nba"
      "player_points" juiceItem juiceItem_mem ppExample rfl).2 juiceItem_fields.1

/-- The record the engine produces for `ppExample` against a single
pinnacle quote at the same line with price −135. -/
def juiceItem135 : PlayerPropItem :=
  mkAnalyzedItem "g1" "basketball_nba" "player_points" "lebron james"
    ⟨[ppExample], [pinnacleAt (49/2) (-135)]⟩ ppExample []

/-- `juiceItem135` really is a record of the run on `ppExample` plus the
pinnacle quote at point 24.5 and price −135. -/
theorem juiceItem135_mem :
    juiceItem135 ∈ matchAndFindEdges [ppExample, pinnacleAt (49/2) (-135)]
      "g1" "basketball_nba" "player_points" :=
  mem_matchAndFindEdges.mpr
    ⟨("lebron james", ⟨[ppExample], [pinnacleAt (49/2) (-135)]⟩),
     by
      rw [show groupLines [ppExample, pinnacleAt (49/2) (-135)] =
        [("lebron james", (⟨[ppExample], [pinnacleAt (49/2) (-135)]⟩ : PlayerGroup))] from rfl]
      exact List.mem_singleton_self _,
     rfl⟩

/-- `juiceItem135` is a JUICE record with full sharp agreement whose
edgeScore is the raw 77.5, not the boosted min(100, 77.5 + 10). -/
theorem juice_not_boosted :
    juiceItem135 ∈ matchAndFindEdges [ppExample, pinnacleAt (49/2) (-135)]
      "g1" "basketball_nba" "player_points" ∧
    juiceItem135.edgeType = EdgeType.JUICE ∧
    juiceItem135.sharpAgreement = 100 ∧
    (calculateEdge ppExample [pinnacleAt (49/2) (-135)] "player_points").score = 155/2 ∧
    juiceItem135.edgeScore = 155/2 ∧
    juiceItem135.edgeScore ≠
      min 100 ((calculateEdge ppExample [pinnacleAt (49/2) (-135)] "player_points").score +
        (jsRound ((100 : ℚ) / 10) : ℚ)) := by
  have htype : juiceItem135.edgeType = EdgeType.JUICE := by
    unfold juiceItem135
    rw [mk_edgeType, edgeBlock_type_of_ne_nil _ _ _ _ _ (by
      rw [show sharpOversOf ⟨[ppExample], [pinnacleAt (49/2) (-135)]⟩ =
        [pinnacleAt (49/2) (-135)] from rfl]
      simp)]
    rw [show sharpOversOf ⟨[ppExample], [pinnacleAt (49/2) (-135)]⟩ =
      [pinnacleAt (49/2) (-135)] from rfl]
    norm_num [calculateEdge, referenceSharp, lookupOr, GOBLIN_THRESHOLDS, ppExample, pinnacleAt,
      chosenPp]
  have hraw : (calculateEdge ppExample [pinnacleAt (49/2) (-135)] "player_points").score =
      155/2 := by
    norm_num [calculateEdge, referenceSharp, lookupOr, GOBLIN_THRESHOLDS, ppExample, pinnacleAt]
  have hscore : juiceItem135.edgeScore = 155/2 := by
    have ht := htype
    unfold juiceItem135 at ht ⊢
    rw [mk_edgeType] at ht
    rw [mk_edgeScore, edgeBlock_score_of_juice _ _ _ _ _ ht]
    rw [show sharpOversOf ⟨[ppExample], [pinnacleAt (49/2) (-135)]⟩ =
      [pinnacleAt (49/2) (-135)] from rfl, show chosenPp ppExample [] = ppExample from rfl]
    exact hraw
  refine ⟨juiceItem135_mem, htype, ?_, hraw, hscore, ?_⟩
  · unfold juiceItem135
    rw [mk_sharpAgreement]
    rfl
  · rw [hscore, hraw]
    norm_num [jsRound]

theorem mk_maxAcceptableLine (gameId sport market key : String) (grp : PlayerGroup)
    (d : PropLine) (r : List PropLine) :
    (mkAnalyzedItem gameId sport market key grp d r).maxAcceptableLine =
      (consensusBlock (chosenPp d r) market (getConsensusLine (sharpOversOf grp))
        (edgeBlock (chosenPp d r) (sharpOversOf grp) market (getConsensusLine (sharpOversOf grp))
          (calculateSharpAgreement (sharpOversOf grp))).recommendedSide
        (edgeBlock (chosenPp d r) (sharpOversOf grp) market (getConsensusLine (sharpOversOf grp))
          (calculateSharpAgreement (sharpOversOf grp))).edgeDetails).maxAcceptableLine := rfl

theorem mk_minAcceptableLine (gameId sport market key : String) (grp : PlayerGroup)
    (d : PropLine) (r : List PropLine) :
    (mkAnalyzedItem gameId sport market key grp d r).minAcceptableLine =
      (consensusBlock (chosenPp d r) market (getConsensusLine (sharpOversOf grp))
        (edgeBlock (chosenPp d r) (sharpOversOf grp) market (getConsensusLine (sharpOversOf grp))
          (calculateSharpAgreement (sharpOversOf grp))).recommendedSide
        (edgeBlock (chosenPp d r) (sharpOversOf grp) market (getConsensusLine (sharpOversOf grp))
          (calculateSharpAgreement (sharpOversOf grp))).edgeDetails).minAcceptableLine := rfl

theorem mk_winProbability (gameId sport market key : String) (grp : PlayerGroup)
    (d : PropLine) (r : List PropLine) :
    (mkAnalyzedItem gameId sport market key grp d r).winProbability =
      (consensusBlock (chosenPp d r) market (getConsensusLine (sharpOversOf grp))
        (edgeBlock (chosenPp d r) (sharpOversOf grp) market (getConsensusLine (sharpOversOf grp))
          (calculateSharpAgreement (sharpOversOf grp))).recommendedSide
        (edgeBlock (chosenPp d r) (sharpOversOf grp) market (getConsensusLine (sharpOversOf grp))
          (calculateSharpAgreement (sharpOversOf grp))).edgeDetails).winProbability := rfl

theorem mk_edgeRemaining (gameId sport market key : String) (grp : PlayerGroup)
    (d : PropLine) (r : List PropLine) :
    (mkAnalyzedItem gameId sport market key grp d r).edgeRemaining =
      (consensusBlock (chosenPp d r) market (getConsensusLine (sharpOversOf grp))
        (edgeBlock (chosenPp d r) (sharpOversOf grp) market (getConsensusLine (sharpOversOf grp))
          (calculateSharpAgreement (sharpOversOf grp))).recommendedSide
        (edgeBlock (chosenPp d r) (sharpOversOf grp) market (getConsensusLine (sharpOversOf grp))
          (calculateSharpAgreement (sharpOversOf grp))).edgeDetails).edgeRemaining := rfl

theorem mk_edgeDetails (gameId sport market key : String) (grp : PlayerGroup)
    (d : PropLine) (r : List PropLine) :
    (mkAnalyzedItem gameId sport market key grp d r).edgeDetails =
      (consensusBlock (chosenPp d r) market (getConsensusLine (sharpOversOf grp))
        (edgeBlock (chosenPp d r) (sharpOversOf grp) market (getConsensusLine (sharpOversOf grp))
          (calculateSharpAgreement (sharpOversOf grp))).recommendedSide
        (edgeBlock (chosenPp d r) (sharpOversOf grp) market (getConsensusLine (sharpOversOf grp))
          (calculateSharpAgreement (sharpOversOf grp))).edgeDetails).edgeDetails := rfl

/-- C4 (amended): `fairValue` is non-null exactly when at least one sharp
OVER quote exists, while the acceptable-range fields additionally require
a recommended side: at least one of them is non-null exactly when the
sharp OVER list is non-empty and `recommendedSide` is set. -/
theorem fairValue_range_nullability (allLines : List PropLine)
    (gameId sport market : String) (item : PlayerPropItem)
    (hmem : item ∈ matchAndFindEdges allLines gameId sport market) :
    (item.fairValue ≠ none ↔ item.sharpLines ≠ []) ∧
    ((item.maxAcceptableLine ≠ none ∨ item.minAcceptableLine ≠ none) ↔
      (item.sharpLines ≠ [] ∧ item.recommendedSide ≠ none)) := by
  obtain ⟨key, grp, d, r, _, _, rfl⟩ := item_spec hmem
  rw [mk_sharpLines, mk_fairValue, mk_recommendedSide, mk_maxAcceptableLine,
    mk_minAcceptableLine]
  refine ⟨getConsensusLine_ne_none_iff _, ?_⟩
  cases hc : getConsensusLine (sharpOversOf grp) with
  | none =>
    have hso : sharpOversOf grp = [] := by
      by_contra hne
      exact ((getConsensusLine_ne_none_iff (sharpOversOf grp)).mpr hne) hc
    rw [consensusBlock_none]
    simp [hso]
  | some c =>
    have hso : sharpOversOf grp ≠ [] := by
      intro he
      rw [he] at hc
      exact Option.noConfusion hc
    cases hside : (edgeBlock (chosenPp d r) (sharpOversOf grp) market (some c)
        (calculateSharpAgreement (sharpOversOf grp))).recommendedSide with
    | none =>
      rw [consensusBlock_some_max, consensusBlock_some_min, acceptableRange_none]
      simp
    | some s =>
      rw [consensusBlock_some_max, consensusBlock_some_min]
      cases s with
      | OVER => rw [acceptableRange_over]; simp [hso]
      | UNDER => rw [acceptableRange_under]; simp [hso]

/-- The record the engine produces for `ppExample` against a single
pinnacle quote at the same line with price −110 (no edge at all). -/
def noneItem : PlayerPropItem :=
  mkAnalyzedItem "g1" "basketball_nba" "player_points" "lebron james"
    ⟨[ppExample], [pinnacleAt (49/2) (-110)]⟩ ppExample []

/-- `noneItem` really is a record of the run on `ppExample` plus the
pinnacle quote at point 24.5 and price −110. -/
theorem noneItem_mem :
    noneItem ∈ matchAndFindEdges [ppExample, pinnacleAt (49/2) (-110)]
      "g1" "basketball_nba" "player_points" :=
  mem_matchAndFindEdges.mpr
    ⟨("lebron james", ⟨[ppExample], [pinnacleAt (49/2) (-110)]⟩),
     by
      rw [show groupLines [ppExample, pinnacleAt (49/2) (-110)] =
        [("lebron james", (⟨[ppExample], [pinnacleAt (49/2) (-110)]⟩ : PlayerGroup))] from rfl]
      exact List.mem_singleton_self _,
     rfl⟩

/-- A produced record with a non-empty sharp list and a computed fair
value whose two acceptable-range fields are nonetheless both null —
refuting the claim that the range fields are set whenever a sharp
consensus exists. -/
theorem range_null_despite_consensus :
    noneItem ∈ matchAndFindEdges [ppExample, pinnacleAt (49/2) (-110)]
      "g1" "basketball_nba" "player_points" ∧
    noneItem.sharpLines ≠ [] ∧
    noneItem.fairValue = some (49/2) ∧
    noneItem.maxAcceptableLine = none ∧
    noneItem.minAcceptableLine = none := by
  have htype : noneItem.edgeType = EdgeType.NONE := by
    unfold noneItem
    rw [mk_edgeType, edgeBlock_type_of_ne_nil _ _ _ _ _ (by
      rw [show sharpOversOf ⟨[ppExample], [pinnacleAt (49/2) (-110)]⟩ =
        [pinnacleAt (49/2) (-110)] from rfl]
      simp)]
    rw [show sharpOversOf ⟨[ppExample], [pinnacleAt (49/2) (-110)]⟩ =
      [pinnacleAt (49/2) (-110)] from rfl]
    norm_num [calculateEdge, referenceSharp, lookupOr, GOBLIN_THRESHOLDS, ppExample, pinnacleAt,
      chosenPp]
  have hside : noneItem.recommendedSide = none := by
    unfold noneItem at htype ⊢
    rw [mk_edgeType] at htype
    rw [mk_recommendedSide]
    exact (edgeBlock_side_none_iff _ _ _ _ _).mpr htype
  have hcons : getConsensusLine (sharpOversOf
      (⟨[ppExample], [pinnacleAt (49/2) (-110)]⟩ : PlayerGroup)) = some (49/2) := by
    rw [show sharpOversOf ⟨[ppExample], [pinnacleAt (49/2) (-110)]⟩ =
      [pinnacleAt (49/2) (-110)] from rfl]
    norm_num [getConsensusLine, roundTo1, jsRound, pinnacleAt]
  refine ⟨noneItem_mem, ?_, ?_, ?_, ?_⟩
  · rw [show noneItem.sharpLines = [pinnacleAt (49/2) (-110)] from rfl]
    simp
  · unfold noneItem
    rw [mk_fairValue]
    exact hcons
  · unfold noneItem at hside ⊢
    rw [mk_recommendedSide] at hside
    rw [hcons] at hside
    rw [mk_maxAcceptableLine, hcons, consensusBlock_some_max, hside, acceptableRange_none]
  · unfold noneItem at hside ⊢
    rw [mk_recommendedSide] at hside
    rw [hcons] at hside
    rw [mk_minAcceptableLine, hcons, consensusBlock_some_min, hside, acceptableRange_none]

theorem fairValue_range_nullability_witness :
    ((noneItem.fairValue ≠ none ↔ noneItem.sharpLines ≠ []) ∧
     ((noneItem.maxAcceptableLine ≠ none ∨ noneItem.minAcceptableLine ≠ none) ↔
       (noneItem.sharpLines ≠ [] ∧ noneItem.recommendedSide ≠ none))) :=
  fairValue_range_nullability [ppExample, pinnacleAt (49/2) (-110)]
    "g1" "basketball_nba" "player_points" noneItem noneItem_mem

/-- C5: when a record has a sharp consensus `c` and a recommended side,
its winProbability is `clamp(50 + |c − softLine| · marketMultiplier, 50, 75)`
rounded to one decimal (multiplier 3.5 for `player_points`); it is null
whenever no consensus exists or no side is recommended. -/
theorem win_probability_rule (allLines : List PropLine) (gameId sport market : String)
    (item : PlayerPropItem) (hmem : item ∈ matchAndFindEdges allLines gameId sport market)
    (pp : PropLine) (hpp : item.prizePicksLine = some pp) :
    lookupOr EDGE_PROBABILITY_MULTIPLIERS "player_points" 3 = 7/2 ∧
    (∀ c, item.fairValue = some c → item.recommendedSide ≠ none →
       item.winProbability = some (roundTo1 (min 75 (max 50
         (50 + |c - pp.point| * lookupOr EDGE_PROBABILITY_MULTIPLIERS market 3))))) ∧
    ((item.fairValue = none ∨ item.recommendedSide = none) → item.winProbability = none) := by
  obtain ⟨key, grp, d, r, _, _, rfl⟩ := item_spec hmem
  rw [mk_prizePicksLine] at hpp
  obtain rfl : chosenPp d r = pp := Option.some.inj hpp
  refine ⟨rfl, ?_, ?_⟩
  · intro c hcv hside
    rw [mk_fairValue] at hcv
    rw [mk_recommendedSide] at hside
    obtain ⟨s, hs⟩ := Option.ne_none_iff_exists'.mp hside
    rw [hcv] at hs
    rw [mk_winProbability, hcv, consensusBlock_some_winProbability, hs,
      estimateWinProbability_some]
  · intro h
    rw [mk_winProbability]
    rcases h with hfv | hsd
    · rw [mk_fairValue] at hfv
      rw [hfv, consensusBlock_none]
    · rw [mk_recommendedSide] at hsd
      cases hcv : getConsensusLine (sharpOversOf grp) with
      | none => rw [consensusBlock_none]
      | some c =>
        rw [hcv] at hsd
        rw [consensusBlock_some_winProbability, hsd]
        rfl

/-- The record the engine produces for `ppExample` against a single
pinnacle quote two points higher (a clean DISCREPANCY). -/
def discItem : PlayerPropItem :=
  mkAnalyzedItem "g1" "basketball_nba" "player_points" "lebron james"
    ⟨[ppExample], [pinnacleAt (53/2) (-120)]⟩ ppExample []

/-- `discItem` really is a record of the run on `ppExample` plus the
pinnacle quote at point 26.5 and price −120. -/
theorem discItem_mem :
    discItem ∈ matchAndFindEdges [ppExample, pinnacleAt (53/2) (-120)]
      "g1" "basketball_nba" "player_points" :=
  mem_matchAndFindEdges.mpr
    ⟨("lebron james", ⟨[ppExample], [pinnacleAt (53/2) (-120)]⟩),
     by
      rw [show groupLines [ppExample, pinnacleAt (53/2) (-120)] =
        [("lebron james", (⟨[ppExample], [pinnacleAt (53/2) (-120)]⟩ : PlayerGroup))] from rfl]
      exact List.mem_singleton_self _,
     rfl⟩

/-- `discItem` is a DISCREPANCY record with consensus 26.5 and a
recommended side. -/
theorem discItem_facts :
    discItem.edgeType = EdgeType.DISCREPANCY ∧
    discItem.fairValue = some (53/2) ∧
    discItem.recommendedSide ≠ none := by
  have htype : discItem.edgeType = EdgeType.DISCREPANCY := by
    unfold discItem
    rw [mk_edgeType, edgeBlock_type_of_ne_nil _ _ _ _ _ (by
      rw [show sharpOversOf ⟨[ppExample], [pinnacleAt (53/2) (-120)]⟩ =
        [pinnacleAt (53/2) (-120)] from rfl]
      simp)]
    rw [show sharpOversOf ⟨[ppExample], [pinnacleAt (53/2) (-120)]⟩ =
      [pinnacleAt (53/2) (-120)] from rfl]
    norm_num [calculateEdge, referenceSharp, lookupOr, GOBLIN_THRESHOLDS, ppExample, pinnacleAt,
      chosenPp]
  refine ⟨htype, ?_, ?_⟩
  · unfold discItem
    rw [mk_fairValue, show sharpOversOf ⟨[ppExample], [pinnacleAt (53/2) (-120)]⟩ =
      [pinnacleAt (53/2) (-120)] from rfl]
    norm_num [getConsensusLine, roundTo1, jsRound, pinnacleAt]
  · intro hnone
    unfold discItem at htype hnone
    rw [mk_recommendedSide] at hnone
    rw [mk_edgeType] at htype
    rw [(edgeBlock_side_none_iff _ _ _ _ _).mp hnone] at htype
    exact EdgeType.noConfusion htype

theorem win_probability_rule_witness :
    discItem.winProbability = some (roundTo1 (min 75 (max 50
      (50 + |53/2 - ppExample.point| *
        lookupOr EDGE_PROBABILITY_MULTIPLIERS "player_points" 3)))) :=
  (win_probability_rule [ppExample, pinnacleAt (53/2) (-120)] "g1" "basketball_nba"
      "player_points" discItem discItem_mem ppExample rfl).2.1 (53/2)
    discItem_facts.2.1 discItem_facts.2.2

/-- C6: a player group with at least one soft OVER quote and zero sharp
quotes yields a record with null fairValue, edge fields cleared and the
no-sharp-lines detail; a player group with zero soft quotes yields no
record at all. -/
theorem no_sharp_degraded (allLines : List PropLine) (gameId sport market key : String)
    (group : PlayerGroup) (hg : (key, group) ∈ groupLines allLines) :
    (group.sharps = [] →
       group.dfs.filter (fun l => l.label == "Over") ≠ [] →
       ∃ item, processGroup gameId sport market key group = some item ∧
         item ∈ matchAndFindEdges allLines gameId sport market ∧
         item.fairValue = none ∧
         item.edgeType = EdgeType.NONE ∧
         item.edgeScore = 0 ∧
         item.recommendedSide = none ∧
         item.maxAcceptableLine = none ∧
         item.minAcceptableLine = none ∧
         item.winProbability = none ∧
         item.edgeRemaining = 0 ∧
         item.edgeDetails = "No sharp lines available for comparison") ∧
    (group.dfs = [] →
       ∀ item ∈ matchAndFindEdges allLines gameId sport market, item.playerId ≠ key) := by
  constructor
  · intro hs hne
    cases hd : group.dfs.filter (fun l => l.label == "Over") with
    | nil => exact absurd hd hne
    | cons d r =>
      have hso : sharpOversOf group = [] := by
        unfold sharpOversOf
        rw [hs]
        rfl
      have hproc : processGroup gameId sport market key group =
          some (mkAnalyzedItem gameId sport market key group d r) :=
        processGroup_eq_some_iff.mpr ⟨d, r, hd, rfl⟩
      refine ⟨mkAnalyzedItem gameId sport market key group d r, hproc,
        mem_matchAndFindEdges.mpr ⟨(key, group), hg, hproc⟩, ?_, ?_, ?_, ?_, ?_, ?_, ?_, ?_, ?_⟩
      · rw [mk_fairValue, hso]
        rfl
      · rw [mk_edgeType, hso, edgeBlock_nil]
      · rw [mk_edgeScore, hso, edgeBlock_nil]
      · rw [mk_recommendedSide, hso, edgeBlock_nil]
      · rw [mk_maxAcceptableLine, hso]
        rfl
      · rw [mk_minAcceptableLine, hso]
        rfl
      · rw [mk_winProbability, hso]
        rfl
      · rw [mk_edgeRemaining, hso]
        rfl
      · rw [mk_edgeDetails, hso]
        rfl
  · intro hd item hmem heq
    obtain ⟨key2, grp2, d2, r2, hg2, hdr2, rfl⟩ := item_spec hmem
    rw [mk_playerId] at heq
    subst heq
    have hgeq : grp2 = group :=
      assoc_keys_nodup_inj (groupLines_keys_nodup allLines) hg2 hg
    rw [hgeq, hd] at hdr2
    exact List.noConfusion hdr2

theorem no_sharp_degraded_witness :
    ∃ item, processGroup "g1" "basketball_nba" "player_points" "lebron james"
        ⟨[ppExample], []⟩ = some item ∧
      item ∈ matchAndFindEdges [ppExample] "g1" "basketball_nba" "player_points" ∧
      item.fairValue = none ∧
      item.edgeType = EdgeType.NONE ∧
      item.edgeScore = 0 ∧
      item.recommendedSide = none ∧
      item.maxAcceptableLine = none ∧
      item.minAcceptableLine = none ∧
      item.winProbability = none ∧
      item.edgeRemaining = 0 ∧
      item.edgeDetails = "No sharp lines available for comparison" :=
  (no_sharp_degraded [ppExample] "g1" "basketball_nba" "player_points" "lebron james"
      ⟨[ppExample], []⟩
      (by
        rw [show groupLines [ppExample] =
          [("lebron james", (⟨[ppExample], []⟩ : PlayerGroup))] from rfl]
        exact List.mem_singleton_self _)).1
    rfl
    (by
      rw [show ((⟨[ppExample], []⟩ : PlayerGroup)).dfs.filter (fun l => l.label == "Over") =
        [ppExample] from rfl]
      simp)

/-- C7 (amended): sharpAgreement is 100 for zero or one quotes; for two
or more it is 100 at spread 0, 0 at any spread ≥ 3, and otherwise the
linear interpolation `100 − spread/3·100` rounded to the nearest integer;
spread 1.5 yields 50 and spread 3 yields 0. -/
theorem sharp_agreement_rule :
    (∀ lines : List PropLine, lines.length < 2 → calculateSharpAgreement lines = 100) ∧
    (∀ (lines : List PropLine) (p : ℚ) (ps : List ℚ),
       lines.map (fun l => l.point) = p :: ps → ps ≠ [] →
       (ps.foldl max p - ps.foldl min p = 0 → calculateSharpAgreement lines = 100) ∧
       (3 ≤ ps.foldl max p - ps.foldl min p → calculateSharpAgreement lines = 0) ∧
       (0 < ps.foldl max p - ps.foldl min p → ps.foldl max p - ps.foldl min p < 3 →
          calculateSharpAgreement lines =
            (jsRound (100 - (ps.foldl max p - ps.foldl min p) / 3 * 100) : ℚ))) ∧
    calculateSharpAgreement [pinnacleAt 5 (-110), pinnacleAt (13/2) (-110)] = 50 ∧
    calculateSharpAgreement [pinnacleAt 5 (-110), pinnacleAt 8 (-110)] = 0 := by
  refine ⟨?_, ?_, ?_, ?_⟩
  · intro lines hlen
    cases lines with
    | nil => rfl
    | cons a t =>
      cases t with
      | nil => rfl
      | cons b t2 =>
        exfalso
        simp only [List.length_cons] at hlen
        omega
  · intro lines p ps hmap hne
    cases ps with
    | nil => exact absurd rfl hne
    | cons q qs =>
      simp only [calculateSharpAgreement, hmap]
      refine ⟨?_, ?_, ?_⟩
      · intro h0
        rw [if_pos h0]
      · intro h3
        rw [if_neg (by intro h0; rw [h0] at h3; norm_num at h3), if_pos h3]
      · intro hpos hlt
        rw [if_neg (by intro h0; rw [h0] at hpos; norm_num at hpos),
          if_neg (not_le.mpr hlt)]
  · norm_num [calculateSharpAgreement, List.foldl, max_def, min_def, jsRound, pinnacleAt]
  · norm_num [calculateSharpAgreement, List.foldl, max_def, min_def, jsRound, pinnacleAt]

/-- At spread 1 the engine returns the integer 67, not the exact linear
interpolation 100 − (1/3)·100 = 200/3: the agreement percentage is
rounded, not exactly linear. -/
theorem sharp_agreement_rounds :
    calculateSharpAgreement [pinnacleAt 5 (-110), pinnacleAt 6 (-110)] = 67 ∧
    ¬ ((67 : ℚ) = 100 - 1/3 * 100) := by
  constructor
  · norm_num [calculateSharpAgreement, List.foldl, max_def, min_def, jsRound, pinnacleAt]
  · norm_num

theorem sharp_agreement_rule_witness :
    calculateSharpAgreement [pinnacleAt 5 (-110)] = 100 ∧
    calculateSharpAgreement [pinnacleAt 5 (-110), pinnacleAt 9 (-110)] = 0 :=
  ⟨sharp_agreement_rule.1 [pinnacleAt 5 (-110)] (by norm_num),
   (sharp_agreement_rule.2.1 [pinnacleAt 5 (-110), pinnacleAt 9 (-110)] 5 [9] rfl
      (by simp)).2.1 (by norm_num [List.foldl, max_def, min_def])⟩

theorem mem_of_mem_dropWhile {α : Type} {p : α → Bool} {c : α} :
    ∀ {l : List α}, c ∈ l.dropWhile p → c ∈ l := by
  intro l
  induction l with
  | nil => simp [List.dropWhile]
  | cons a t ih =>
    simp only [List.dropWhile]
    split
    · intro h
      exact List.mem_cons_of_mem _ (ih h)
    · exact id

theorem mem_of_mem_jsTrim {c : Char} {l : List Char} (h : c ∈ jsTrim l) : c ∈ l := by
  unfold jsTrim at h
  rw [List.mem_reverse] at h
  have h2 := mem_of_mem_dropWhile h
  rw [List.mem_reverse] at h2
  exact mem_of_mem_dropWhile h2

theorem mem_of_mem_dropGenSuffix {c : Char} {l : List Char} (h : c ∈ dropGenSuffix l) :
    c ∈ l := by
  unfold dropGenSuffix at h
  dsimp only at h
  split at h
  · exact List.take_subset _ _ h
  · split at h
    · exact List.take_subset _ _ h
    · split at h
      · exact List.take_subset _ _ h
      · split at h
        · exact List.take_subset _ _ h
        · split at h
          · exact List.take_subset _ _ h
          · exact h

/-- C8 (amended): `normalizeName` lower-cases, strips every character
other than `a`–`z` and whitespace, removes one trailing generational
suffix preceded by whitespace, and trims the ends — internal whitespace
is preserved verbatim, not collapsed.  Casing/punctuation/suffix variants
still collide: the three example spellings all normalize to
"lebron james", and every output character is a lower-case letter or
whitespace. -/
theorem normalize_name_rule :
    normalizeName "LeBron James Jr." = "lebron james" ∧
    normalizeName "lebron james jr" = "lebron james" ∧
    normalizeName "lebron james" = "lebron james" ∧
    ∀ s : String, (normalizeName s).data.all (fun c => isLowerAlpha c || jsWhitespace c) = true := by
  refine ⟨by decide, by decide, by decide, ?_⟩
  intro s
  rw [List.all_eq_true]
  intro c hc
  have h1 : c ∈ jsTrim (dropGenSuffix
      ((s.data.map Char.toLower).filter (fun c => isLowerAlpha c || jsWhitespace c))) := hc
  have h2 := mem_of_mem_dropGenSuffix (mem_of_mem_jsTrim h1)
  exact (List.mem_filter.mp h2).2

/-- `normalizeName` does not collapse internal whitespace: a double space
survives normalization, so the two spellings get different keys. -/
theorem whitespace_not_collapsed :
    normalizeName "LeBron  James" = "lebron  james" ∧
    normalizeName "LeBron James" = "lebron james" ∧
    normalizeName "LeBron  James" ≠ normalizeName "LeBron James" := by
  refine ⟨by decide, by decide, by decide⟩
